import Mathlib

/-!
# Verification of the hackathon deadline tracker

Shallow embedding of the core logic of the hackathon-deadline-tracker
repository (src/urgency.py, src/state.py, src/scraper.py, src/notifier.py,
src/main.py) and proofs of the spec's testable properties.

Times are rationals measured in seconds since an arbitrary epoch (matching
Python's `datetime` subtraction followed by `total_seconds()`); hour
quantities are rationals.  Python dictionaries keyed by URL are embedded as
association lists.
-/

namespace HLUEAS

/-! ## Data model -/

/-- Alert level enum, `AlertLevel` in src/urgency.py. -/
inductive AlertLevel where
  | CRITICAL
  | HIGH
  | MEDIUM
  | LOW
  | IGNORE
deriving DecidableEq, Repr

/-- A hackathon record as produced by the scraper (src/scraper.py,
`_parse_challenge_link`): name, url, deadline, optional prize, location.
The deadline is epoch seconds. -/
structure HackathonRecord where
  name : String
  url : String
  deadline : ℚ
  prize_amount : Option ℚ
  location : String
deriving DecidableEq, Repr

/-- A hackathon record enriched by `UrgencyEngine.process_hackathons`
(src/urgency.py) with urgency metadata. -/
structure ScoredRecord where
  base : HackathonRecord
  hours_remaining : ℚ
  alert_level : AlertLevel
  priority_score : ℚ
  notification_interval : ℚ
deriving DecidableEq, Repr

/-! ## Urgency engine (src/urgency.py) -/

/-- `UrgencyEngine.CRITICAL_THRESHOLD`. -/
def CRITICAL_THRESHOLD : ℚ := 3
/-- `UrgencyEngine.HIGH_THRESHOLD`. -/
def HIGH_THRESHOLD : ℚ := 12
/-- `UrgencyEngine.MEDIUM_THRESHOLD`. -/
def MEDIUM_THRESHOLD : ℚ := 48
/-- `UrgencyEngine.LOW_THRESHOLD`. -/
def LOW_THRESHOLD : ℚ := 168

/-- `UrgencyEngine.calculate_hours_remaining`: `max(0, (deadline - now)/3600)`
with the subtraction in seconds. -/
def calculate_hours_remaining (now deadline : ℚ) : ℚ :=
  max 0 ((deadline - now) / 3600)

/-- `UrgencyEngine.get_alert_level`: ascending threshold cascade, first
match wins, upper bounds inclusive. -/
def get_alert_level (hours_remaining : ℚ) : AlertLevel :=
  if hours_remaining ≤ CRITICAL_THRESHOLD then .CRITICAL
  else if hours_remaining ≤ HIGH_THRESHOLD then .HIGH
  else if hours_remaining ≤ MEDIUM_THRESHOLD then .MEDIUM
  else if hours_remaining ≤ LOW_THRESHOLD then .LOW
  else .IGNORE

/-- `UrgencyEngine.INTERVALS` / `get_notification_interval`. -/
def get_notification_interval : AlertLevel → ℚ
  | .CRITICAL => 1
  | .HIGH => 3
  | .MEDIUM => 12
  | .LOW => 24
  | .IGNORE => 168

/-- `UrgencyEngine.calculate_priority_score`.  The prize term reproduces
`min(prize_amount / 10000, 1.0) if prize_amount else 0` (a zero prize is
falsy in Python and yields 0). -/
def calculate_priority_score (hours_remaining prize_amount tag_match_score : ℚ) : ℚ :=
  let time_score := (1 / max hours_remaining 1) * 50
  let prize_normalized := if prize_amount ≠ 0 then min (prize_amount / 10000) 1 else 0
  let prize_score := prize_normalized * 20
  let tag_score := tag_match_score * 30
  time_score + prize_score + tag_score

/-- The loop body of `UrgencyEngine.process_hackathons`: score one record,
or drop it when its alert level is IGNORE.  `hackathon.get('prize_amount', 0)`
passes the stored optional prize through (a stored `None` reaches
`calculate_priority_score` as a falsy value, hence 0). -/
def score_hackathon (now : ℚ) (h : HackathonRecord) : Option ScoredRecord :=
  let hours_remaining := calculate_hours_remaining now h.deadline
  let alert_level := get_alert_level hours_remaining
  if alert_level = .IGNORE then none
  else
    some { base := h
           hours_remaining := hours_remaining
           alert_level := alert_level
           priority_score :=
             calculate_priority_score hours_remaining (h.prize_amount.getD 0) 0
           notification_interval := get_notification_interval alert_level }

/-- Stable insertion of a scored record into a list sorted descending by
priority: the record goes before the first element whose score it meets or
beats, preserving input order on ties — the behaviour of Python's stable
`list.sort(key=..., reverse=True)`. -/
def insertDesc (x : ScoredRecord) : List ScoredRecord → List ScoredRecord
  | [] => [x]
  | y :: ys =>
    if y.priority_score ≤ x.priority_score then x :: y :: ys
    else y :: insertDesc x ys

/-- Stable sort descending by priority score (insertion sort; agrees with
Python's stable sort because a stable sort by a fixed key is unique). -/
def sortByPriorityDesc : List ScoredRecord → List ScoredRecord
  | [] => []
  | x :: xs => insertDesc x (sortByPriorityDesc xs)

/-- `UrgencyEngine.process_hackathons`: score every record, drop IGNORE,
sort by priority descending, keep the first `top_n`. -/
def process_hackathons (now : ℚ) (top_n : ℕ) (hackathons : List HackathonRecord) :
    List ScoredRecord :=
  (sortByPriorityDesc (hackathons.filterMap (score_hackathon now))).take top_n

/-! ## Notification state store (src/state.py) -/

/-- The `last_notified` field of a stored state entry.  `missing` covers an
absent key and an empty string (both falsy in `last_state.get('last_notified')`);
`unparsable` covers a present string on which `datetime.fromisoformat`
raises `ValueError`; `stamp t` is a parsed timestamp, in epoch seconds. -/
inductive LastNotified where
  | missing
  | unparsable
  | stamp (t : ℚ)
deriving DecidableEq, Repr

/-- One value of the state dictionary (`self.state[url]`). -/
structure StateEntry where
  last_notified : LastNotified
  level : AlertLevel
  name : String
deriving DecidableEq, Repr

/-- The state dictionary `self.state`, URL → entry, as an association list
(first binding wins on lookup; Python dicts hold one binding per key). -/
abbrev StateMap : Type := List (String × StateEntry)

/-- Dictionary lookup `self.state[url]` (with `url in self.state` as
`isSome`). -/
def lookupUrl (s : StateMap) (url : String) : Option StateEntry :=
  match s.find? (fun p => p.1 == url) with
  | some p => some p.2
  | none => none

/-- `StateManager.should_notify`: true when the URL is absent from the
store, the stored `last_notified` is missing/empty or unparsable, or the
elapsed hours since `last_notified` reach the record's current
notification interval. -/
def should_notify (s : StateMap) (now : ℚ) (h : ScoredRecord) : Bool :=
  match lookupUrl s h.base.url with
  | none => true
  | some last_state =>
    match last_state.last_notified with
    | .missing => true
    | .unparsable => true
    | .stamp last_notified =>
      decide ((now - last_notified) / 3600 ≥ h.notification_interval)

/-- Dictionary assignment `self.state[url] = entry`: replace the binding in
place when the key exists, otherwise add a new binding at the end. -/
def setEntry (s : StateMap) (url : String) (e : StateEntry) : StateMap :=
  if s.any (fun p => p.1 == url) then
    s.map (fun p => if p.1 == url then (url, e) else p)
  else s ++ [(url, e)]

/-- `StateManager.record_notification`: upsert the record's URL with the
current timestamp, level and name (followed by an immediate save). -/
def record_notification (s : StateMap) (now : ℚ) (h : ScoredRecord) : StateMap :=
  setEntry s h.base.url
    { last_notified := .stamp now, level := h.alert_level, name := h.base.name }

/-- `StateManager.filter_for_notification`. -/
def filter_for_notification (s : StateMap) (now : ℚ) (hs : List ScoredRecord) :
    List ScoredRecord :=
  hs.filter (fun h => should_notify s now h)

/-- The per-entry removal test of `StateManager.cleanup_old_entries`: an
entry joins `to_remove` when its `last_notified` string is present
(truthy) and either fails to parse or parses to a time strictly before
`now - days` (the cutoff, `days` converted to seconds).  An entry with a
missing/empty `last_notified` is never removed. -/
def removable (now : ℚ) (days : ℕ) (e : StateEntry) : Bool :=
  match e.last_notified with
  | .missing => false
  | .unparsable => true
  | .stamp t => decide (t < now - (days : ℚ) * 86400)

/-- `StateManager.cleanup_old_entries`: delete every removable entry; the
second component records whether anything was removed (the condition for
the save-to-disk that follows). -/
def cleanup_old_entries (now : ℚ) (days : ℕ) (s : StateMap) : StateMap × Bool :=
  (s.filter (fun p => ! removable now days p.2),
   s.any (fun p => removable now days p.2))

/-! ## Dedup/filter stage of the scraper (src/scraper.py) -/

/-- The seen-set dedup loop of `get_active_hackathons`: keep the first
record for each URL. -/
def dedupByUrlAux (seen : List String) : List HackathonRecord → List HackathonRecord
  | [] => []
  | h :: rest =>
    if h.url ∈ seen then dedupByUrlAux seen rest
    else h :: dedupByUrlAux (h.url :: seen) rest

/-- Deduplication by URL, first occurrence kept. -/
def dedupByUrl (hs : List HackathonRecord) : List HackathonRecord :=
  dedupByUrlAux [] hs

/-- Stable insertion into a list sorted ascending by deadline (Python's
stable `list.sort(key=lambda h: h['deadline'])`). -/
def insertByDeadline (x : HackathonRecord) : List HackathonRecord → List HackathonRecord
  | [] => [x]
  | y :: ys =>
    if x.deadline ≤ y.deadline then x :: y :: ys
    else y :: insertByDeadline x ys

/-- Stable sort ascending by deadline. -/
def sortByDeadline : List HackathonRecord → List HackathonRecord
  | [] => []
  | x :: xs => insertByDeadline x (sortByDeadline xs)

/-- The pure tail of `DevpostScraper.get_active_hackathons` applied to the
collected records: keep records whose deadline is strictly in the future,
then deduplicate by URL (first seen), then sort ascending by deadline —
in that order in the source. -/
def get_active_hackathons (now : ℚ) (all_hackathons : List HackathonRecord) :
    List HackathonRecord :=
  sortByDeadline (dedupByUrl (all_hackathons.filter (fun h => now < h.deadline)))

/-- Modelled from the spec: the dedup/filter stage as §4.2 words it —
first-seen per URL FIRST, then the strictly-future filter, then the sort.
Kept for comparison with `get_active_hackathons`, which performs the
filter before the dedup. -/
def spec_dedup_then_filter (now : ℚ) (all_hackathons : List HackathonRecord) :
    List HackathonRecord :=
  sortByDeadline ((dedupByUrl all_hackathons).filter (fun h => now < h.deadline))

/-! ## Prize extraction (src/scraper.py, `_extract_prize_from_text`)

The regex scan over the lower-cased page text yields a stream of matches,
each with an optional currency symbol before the number, the numeric
amount, an optional magnitude token and an optional three-letter suffix.
The scan itself is abstracted as that candidate stream (plus the flag
"the word 'prize' occurs in the text"); the per-candidate loop body —
skip rules, conversion table, magnitude handling, the floor and the
running maximum — is embedded verbatim. -/

/-- The magnitude group `(k|m|mil|million)?` of the prize regex, collapsed
to its two multipliers (`mil` and `million` behave as `m`). -/
inductive Magnitude where
  | kilo
  | mega
deriving DecidableEq, Repr

/-- One match of the prize regex: optional currency symbol before the
number (`[$€£₹]`), the parsed numeric amount, optional magnitude,
optional three-letter alphabetic suffix (lower-cased). -/
structure PrizeCandidate where
  pre : Option String
  amount : ℚ
  mag : Option Magnitude
  suf : Option String
deriving DecidableEq, Repr

/-- The `currencies` conversion table of `_extract_prize_from_text`
(symbol or code → USD rate); unknown keys are absent. -/
def currencyRate : String → Option ℚ
  | "$" => some 1
  | "usd" => some 1
  | "€" => some (108/100)
  | "eur" => some (108/100)
  | "£" => some (125/100)
  | "gbp" => some (125/100)
  | "₹" => some (12/1000)
  | "inr" => some (12/1000)
  | "c$" => some (74/100)
  | "cad" => some (74/100)
  | "a$" => some (65/100)
  | "aud" => some (65/100)
  | _ => none

/-- The loop body of `_extract_prize_from_text` for one regex match:
`none` when the candidate is skipped or its converted value fails the
`val > 100` floor, otherwise the converted USD value.  `prizeInText` is
`'prize' in text_lower`. -/
def candidateValue (prizeInText : Bool) (c : PrizeCandidate) : Option ℚ :=
  if c.pre = none ∧ c.suf = none ∧ prizeInText = false then none
  else if (match c.suf with
           | some s => (currencyRate s).isNone
           | none => false) then none
  else
    let base_amount := c.amount *
      ((match c.mag with
        | some .kilo => 1000
        | some .mega => 1000000
        | none => 1) : ℚ)
    let rate :=
      match c.pre with
      | some p =>
        (match currencyRate p with
         | some r => r
         | none =>
           (match c.suf with
            | some s => (currencyRate s).getD 1
            | none => 1))
      | none =>
        (match c.suf with
         | some s => (currencyRate s).getD 1
         | none => 1)
    let val := base_amount * rate
    if 100 < val then some val else none

/-- One iteration of the `max_prize = max(max_prize, val)` accumulation in
`_extract_prize_from_text`. -/
def prizeStep (prizeInText : Bool) (acc : ℚ) (c : PrizeCandidate) : ℚ :=
  match candidateValue prizeInText c with
  | some v => max acc v
  | none => acc

/-- `_extract_prize_from_text` on the candidate stream: fold the running
maximum (starting at 0) over the loop body, return it when positive,
else `None`. -/
def extract_prize (prizeInText : Bool) (cs : List PrizeCandidate) : Option ℚ :=
  let max_prize := cs.foldl (prizeStep prizeInText) 0
  if 0 < max_prize then some max_prize else none

/-- The converted USD value of one candidate as the amended claim words
it: amount, times the magnitude multiplier, times the conversion rate (a
recognized currency symbol before the number taking precedence, then a
recognized currency-code suffix, and rate 1 with no recognized marker). -/
def usdValue (c : PrizeCandidate) : ℚ :=
  let magMul : ℚ :=
    match c.mag with
    | some .kilo => 1000
    | some .mega => 1000000
    | none => 1
  let rate : ℚ :=
    match c.pre with
    | some p =>
      (match currencyRate p with
       | some r => r
       | none =>
         (match c.suf with
          | some s => (currencyRate s).getD 1
          | none => 1))
    | none =>
      (match c.suf with
       | some s => (currencyRate s).getD 1
       | none => 1)
  c.amount * magMul * rate

/-- Modelled from the spec: prize extraction as the claim words it — only
currency-prefixed or currency-suffixed tokens are considered, conversion
and magnitudes applied, candidates below the $100 floor discarded (so a
value of exactly $100 is kept), maximum returned, null when no candidate
qualifies.  Kept for comparison with `extract_prize`. -/
def spec_extract_prize (cs : List PrizeCandidate) : Option ℚ :=
  let vals := cs.filterMap (fun c =>
    if c.pre = none ∧ c.suf = none then none
    else if (match c.suf with
             | some s => (currencyRate s).isNone
             | none => false) then none
    else
      let base_amount := c.amount *
        (match c.mag with
         | some .kilo => 1000
         | some .mega => 1000000
         | none => 1)
      let rate :=
        match c.pre with
        | some p =>
          (match currencyRate p with
           | some r => r
           | none => 1)
        | none =>
          (match c.suf with
           | some s => (currencyRate s).getD 1
           | none => 1)
      let val := base_amount * rate
      if 100 ≤ val then some val else none)
  vals.foldl (fun acc v => some (max (acc.getD 0) v)) none

/-! ## Notifier (src/notifier.py)

Network effects are made explicit: `net` is the oracle giving the outcome
of a live Telegram post for a record, and each send reports how many live
HTTP posts it performed, so that dry-run's "no network call" is a provable
statement. -/

/-- Counts returned by `send_batch` (`{'sent': ..., 'failed': ...}`),
extended with the number of live HTTP posts performed. -/
structure SendResult where
  sent : ℕ
  failed : ℕ
  livePosts : ℕ
deriving DecidableEq, Repr

/-- `TelegramNotifier.send_notification`: in dry-run, print and report
success with no network call; live, perform one post whose outcome the
oracle decides.  Returns (success, number of live posts). -/
def send_notification (dry_run : Bool) (net : ScoredRecord → Bool)
    (h : ScoredRecord) : Bool × ℕ :=
  if dry_run then (true, 0) else (net h, 1)

/-- `TelegramNotifier.send_batch`: sequential sends, counting successes
and failures. -/
def send_batch (dry_run : Bool) (net : ScoredRecord → Bool)
    (hs : List ScoredRecord) : SendResult :=
  match hs with
  | [] => { sent := 0, failed := 0, livePosts := 0 }
  | h :: rest =>
    let r := send_notification dry_run net h
    let acc := send_batch dry_run net rest
    if r.1 then
      { sent := acc.sent + 1, failed := acc.failed, livePosts := acc.livePosts + r.2 }
    else
      { sent := acc.sent, failed := acc.failed + 1, livePosts := acc.livePosts + r.2 }

/-! ## Orchestrator, dry-run path (src/main.py, `main`) -/

/-- The state-and-network effects of one `main` run with `dry_run=True`
and `force=False`, given the scraped records, the state file contents and
the live-send oracle.  Mirrors `main`'s control flow: early return when no
records, no urgent records, or nothing to notify; notifications sent with
`dry_run=True`; `record_notification` skipped (`not dry_run and not force`
is false); `cleanup_old_entries(days=30)` run at the end.  Returns the
state file contents after the run and the number of live posts made. -/
def main_dry_run (now : ℚ) (top_n : ℕ) (disk : StateMap)
    (hackathons : List HackathonRecord) (net : ScoredRecord → Bool) :
    StateMap × ℕ :=
  if hackathons = [] then (disk, 0)
  else
    let urgent_hackathons := process_hackathons now top_n hackathons
    if urgent_hackathons = [] then (disk, 0)
    else
      let to_notify := filter_for_notification disk now urgent_hackathons
      if to_notify = [] then (disk, 0)
      else
        let result := send_batch true net to_notify
        let c := cleanup_old_entries now 30 disk
        (if c.2 then c.1 else disk, result.livePosts)

/-- A sample scored record used to instantiate universally quantified
theorems at a concrete input. -/
def sampleScored : ScoredRecord :=
  { base := { name := "N", url := "u", deadline := 3600, prize_amount := none,
              location := "Online" }
    hours_remaining := 1
    alert_level := .CRITICAL
    priority_score := 50
    notification_interval := 1 }

/-! ## Helper lemmas -/

theorem mem_insertDesc {x y : ScoredRecord} {l : List ScoredRecord} :
    y ∈ insertDesc x l ↔ y = x ∨ y ∈ l := by
  induction l with
  | nil => simp [insertDesc]
  | cons z zs ih =>
    unfold insertDesc
    split_ifs with hz
    · simp [or_comm, or_assoc, or_left_comm]
    · simp only [List.mem_cons, ih]
      tauto

theorem mem_sortByPriorityDesc {y : ScoredRecord} {l : List ScoredRecord} :
    y ∈ sortByPriorityDesc l ↔ y ∈ l := by
  induction l with
  | nil => simp [sortByPriorityDesc]
  | cons z zs ih =>
    unfold sortByPriorityDesc
    rw [mem_insertDesc]
    simp [ih]

/-- In dry-run mode every send succeeds and performs no live post. -/
theorem send_batch_dry (net : ScoredRecord → Bool) (hs : List ScoredRecord) :
    send_batch true net hs = { sent := hs.length, failed := 0, livePosts := 0 } := by
  induction hs with
  | nil => rfl
  | cons h rest ih => simp [send_batch, send_notification, ih]

/-! ## Claims -/

/-- C1: for every hours_remaining h ≥ 0, `get_alert_level` assigns the five
bands with thresholds inclusive at the upper bound of each band, checked in
ascending order, first match wins: h ≤ 3 ⇒ CRITICAL, 3 < h ≤ 12 ⇒ HIGH,
12 < h ≤ 48 ⇒ MEDIUM, 48 < h ≤ 168 ⇒ LOW, h > 168 ⇒ IGNORE, and each band
is hit exactly on its interval. -/
theorem get_alert_level_bands (h : ℚ) (_hge : 0 ≤ h) :
    (get_alert_level h = .CRITICAL ↔ h ≤ 3) ∧
    (get_alert_level h = .HIGH ↔ 3 < h ∧ h ≤ 12) ∧
    (get_alert_level h = .MEDIUM ↔ 12 < h ∧ h ≤ 48) ∧
    (get_alert_level h = .LOW ↔ 48 < h ∧ h ≤ 168) ∧
    (get_alert_level h = .IGNORE ↔ 168 < h) := by
  unfold get_alert_level CRITICAL_THRESHOLD HIGH_THRESHOLD MEDIUM_THRESHOLD LOW_THRESHOLD
  split_ifs with h1 h2 h3 h4 <;>
    refine ⟨?_, ?_, ?_, ?_, ?_⟩ <;> simp <;> (try constructor) <;> intros <;> linarith

/-- Witness for C1 at the boundary inputs named by the claim:
h = 3 ⇒ CRITICAL and h = 3.01 ⇒ HIGH. -/
theorem get_alert_level_bands_witness :
    0 ≤ (3 : ℚ) ∧ get_alert_level 3 = .CRITICAL ∧
    0 ≤ (301/100 : ℚ) ∧ get_alert_level (301/100) = .HIGH := by
  refine ⟨by norm_num, (get_alert_level_bands 3 (by norm_num)).1.mpr (by norm_num),
    by norm_num, (get_alert_level_bands (301/100) (by norm_num)).2.1.mpr (by norm_num)⟩

/-- C2: `process_hackathons` returns at most `top_n` records and none of
them has alert level IGNORE. -/
theorem process_hackathons_top_n_no_ignore (now : ℚ) (top_n : ℕ)
    (hackathons : List HackathonRecord) :
    (process_hackathons now top_n hackathons).length ≤ top_n ∧
    ∀ r ∈ process_hackathons now top_n hackathons, r.alert_level ≠ .IGNORE := by
  constructor
  · exact List.length_take_le _ _
  · intro r hr
    have hr1 : r ∈ sortByPriorityDesc (hackathons.filterMap (score_hackathon now)) :=
      List.mem_of_mem_take hr
    have hr2 : r ∈ hackathons.filterMap (score_hackathon now) :=
      mem_sortByPriorityDesc.mp hr1
    rcases List.mem_filterMap.mp hr2 with ⟨h, _, hsc⟩
    simp only [score_hackathon] at hsc
    split_ifs at hsc with hig
    cases hsc
    exact hig

/-- Witness for C2 at a concrete input. -/
theorem process_hackathons_top_n_no_ignore_witness :
    (process_hackathons 0 3 []).length ≤ 3 := by
  exact (process_hackathons_top_n_no_ignore 0 3 []).1

/-- C9: `cleanup_old_entries` never removes a state entry whose
`last_notified` is absent or empty, regardless of its age. -/
theorem cleanup_keeps_entry_without_timestamp (now : ℚ) (days : ℕ) (s : StateMap)
    (k : String) (e : StateEntry) (hm : e.last_notified = .missing)
    (hin : (k, e) ∈ s) :
    (k, e) ∈ (cleanup_old_entries now days s).1 := by
  unfold cleanup_old_entries
  exact List.mem_filter.mpr ⟨hin, by simp [removable, hm]⟩

/-- Witness for C9 at a concrete input. -/
theorem cleanup_keeps_entry_without_timestamp_witness :
    ("u", ({ last_notified := .missing, level := .LOW, name := "N" } : StateEntry)) ∈
      (cleanup_old_entries 3456000 30
        [("u", { last_notified := .missing, level := .LOW, name := "N" })]).1 := by
  exact cleanup_keeps_entry_without_timestamp 3456000 30 _ "u" _ rfl (by simp)

/-- C5 counterexample: hours 0 and 1/2 (both ≥ 0, the smaller strictly
fewer), equal prize and tag score, receive equal priority scores (both
50, because `max(hours_remaining, 1)` clamps both to 1), so the record
with strictly fewer hours does not get a strictly higher score. -/
theorem priority_score_strict_counterexample :
    ¬ calculate_priority_score (1/2) 0 0 < calculate_priority_score 0 0 0 := by
  simp only [calculate_priority_score]
  norm_num

/-- C5 amended: with equal prize and tag score and hours ≥ 0, strictly
fewer hours remaining never scores lower, and scores strictly higher
whenever the larger hours value exceeds 1 (below one hour both arguments
are clamped by `max(hours_remaining, 1)` and the scores coincide). -/
theorem priority_score_antitone (h1 h2 p t : ℚ) (_h1ge : 0 ≤ h1) (hlt : h1 < h2) :
    calculate_priority_score h2 p t ≤ calculate_priority_score h1 p t ∧
    (1 < h2 → calculate_priority_score h2 p t < calculate_priority_score h1 p t) := by
  have ha : (1 : ℚ) ≤ max h1 1 := le_max_right _ _
  have hab : max h1 1 ≤ max h2 1 := max_le_max (le_of_lt hlt) le_rfl
  constructor
  · have key : 1 / max h2 1 ≤ 1 / max h1 1 :=
      one_div_le_one_div_of_le (by linarith) hab
    have key50 : (1 / max h2 1) * 50 ≤ (1 / max h1 1) * 50 :=
      mul_le_mul_of_nonneg_right key (by norm_num)
    simp only [calculate_priority_score]
    linarith
  · intro hgt
    have e2 : max h2 1 = h2 := max_eq_left (le_of_lt hgt)
    have hblt : max h1 1 < max h2 1 := by
      rcases le_or_lt h1 1 with hc | hc
      · have e1 : max h1 1 = 1 := max_eq_right hc
        linarith
      · have e1 : max h1 1 = h1 := max_eq_left (le_of_lt hc)
        linarith
    have key : 1 / max h2 1 < 1 / max h1 1 :=
      one_div_lt_one_div_of_lt (by linarith) hblt
    have key50 : (1 / max h2 1) * 50 < (1 / max h1 1) * 50 :=
      mul_lt_mul_of_pos_right key (by norm_num)
    simp only [calculate_priority_score]
    linarith

/-- Witness for the amended C5 at hours 2 < 5. -/
theorem priority_score_antitone_witness :
    0 ≤ (2 : ℚ) ∧ (2 : ℚ) < 5 ∧ 1 < (5 : ℚ) ∧
    calculate_priority_score 5 0 0 < calculate_priority_score 2 0 0 := by
  refine ⟨by norm_num, by norm_num, by norm_num, ?_⟩
  exact (priority_score_antitone 2 5 0 0 (by norm_num) (by norm_num)).2 (by norm_num)

/-- Lookup after an in-place replacement of an existing binding. -/
theorem lookupUrl_map_set (url : String) (e : StateEntry) :
    ∀ s : StateMap, s.any (fun p => p.1 == url) = true →
      lookupUrl (s.map (fun p => if p.1 == url then (url, e) else p)) url = some e
  | [], h => by simp at h
  | p :: rest, h => by
    by_cases hp : p.1 == url
    · simp [lookupUrl, List.find?, hp]
    · have hrest : rest.any (fun q => q.1 == url) = true := by
        simpa [List.any_cons, hp] using h
      have := lookupUrl_map_set url e rest hrest
      simpa [lookupUrl, List.find?, hp] using this

/-- Lookup after adding a fresh binding at the end. -/
theorem lookupUrl_append_single (url : String) (e : StateEntry) :
    ∀ s : StateMap, s.any (fun p => p.1 == url) = false →
      lookupUrl (s ++ [(url, e)]) url = some e
  | [], _ => by simp [lookupUrl, List.find?]
  | p :: rest, h => by
    have hp : (p.1 == url) = false := by
      simp only [List.any_cons, Bool.or_eq_false_iff] at h
      exact h.1
    have hrest : rest.any (fun q => q.1 == url) = false := by
      simp only [List.any_cons, Bool.or_eq_false_iff] at h
      exact h.2
    have := lookupUrl_append_single url e rest hrest
    simpa [lookupUrl, List.find?, hp] using this

/-- Looking up the URL just written by `setEntry` yields the new entry. -/
theorem lookupUrl_setEntry_self (s : StateMap) (url : String) (e : StateEntry) :
    lookupUrl (setEntry s url e) url = some e := by
  unfold setEntry
  split_ifs with hany
  · exact lookupUrl_map_set url e s hany
  · exact lookupUrl_append_single url e s
      (by revert hany; cases s.any (fun p => p.1 == url) <;> simp)

/-- C3: `should_notify` is true exactly when the URL is absent from the
store, or the stored `last_notified` is missing or unparsable, or the
elapsed hours since `last_notified` reach the record's current
notification interval; in particular it is true for a URL never recorded,
and (for a positive interval) false immediately after
`record_notification`. -/
theorem should_notify_spec (s : StateMap) (now : ℚ) (h : ScoredRecord)
    (hpos : 0 < h.notification_interval) :
    (should_notify s now h = true ↔
      lookupUrl s h.base.url = none ∨
      (∃ e, lookupUrl s h.base.url = some e ∧
        (e.last_notified = .missing ∨ e.last_notified = .unparsable)) ∨
      (∃ e t, lookupUrl s h.base.url = some e ∧ e.last_notified = .stamp t ∧
        h.notification_interval ≤ (now - t) / 3600)) ∧
    (lookupUrl s h.base.url = none → should_notify s now h = true) ∧
    should_notify (record_notification s now h) now h = false := by
  refine ⟨?_, ?_, ?_⟩
  · unfold should_notify
    rcases heq : lookupUrl s h.base.url with _ | e
    · simp [heq]
    · rcases hlast : e.last_notified with _ | _ | t
      · simp [heq, hlast]
      · simp [heq, hlast]
      · simp [heq, hlast, ge_iff_le]
  · intro hnone
    simp [should_notify, hnone]
  · unfold record_notification
    have hl := lookupUrl_setEntry_self s h.base.url
      { last_notified := .stamp now, level := h.alert_level, name := h.base.name }
    simp only [should_notify, hl, sub_self, zero_div, ge_iff_le,
      decide_eq_false_iff_not, not_le]
    simpa using hpos

/-- Witness for C3 on the empty store at a concrete record. -/
theorem should_notify_spec_witness :
    0 < sampleScored.notification_interval ∧
    should_notify [] 0 sampleScored = true ∧
    should_notify (record_notification [] 0 sampleScored) 0 sampleScored = false := by
  have hs := should_notify_spec [] 0 sampleScored (by norm_num [sampleScored])
  exact ⟨by norm_num [sampleScored], hs.2.1 rfl, hs.2.2⟩

/-- Membership after cleanup: kept iff present before and not removable. -/
theorem cleanup_old_entries_mem (now : ℚ) (days : ℕ) (s : StateMap)
    (p : String × StateEntry) :
    p ∈ (cleanup_old_entries now days s).1 ↔
      p ∈ s ∧ removable now days p.2 = false := by
  simp [cleanup_old_entries, List.mem_filter]

/-- C7: `cleanup_old_entries` removes exactly the entries whose
`last_notified` is present and parses to a time older than
now - retention_days, or is present and unparsable; it keeps all other
entries, reports a save exactly when some entry was removed, and is
idempotent: run on its own output it removes nothing. -/
theorem cleanup_old_entries_spec (now : ℚ) (days : ℕ) (s : StateMap) :
    (∀ p : String × StateEntry,
      p ∈ (cleanup_old_entries now days s).1 ↔
        p ∈ s ∧ removable now days p.2 = false) ∧
    ((cleanup_old_entries now days s).2 = true ↔
      ∃ p ∈ s, removable now days p.2 = true) ∧
    cleanup_old_entries now days (cleanup_old_entries now days s).1 =
      ((cleanup_old_entries now days s).1, false) := by
  refine ⟨?_, ?_, ?_⟩
  · intro p
    simp [cleanup_old_entries, List.mem_filter]
  · simp [cleanup_old_entries, List.any_eq_true]
  · simp only [cleanup_old_entries, Prod.mk.injEq]
    refine ⟨?_, ?_⟩
    · rw [List.filter_filter]
      simp
    · rw [List.any_eq_false]
      intro x hx
      have hkeep := (List.mem_filter.mp hx).2
      simp only [Bool.not_eq_true'] at hkeep
      simp [hkeep]

/-- Witness for C7: an entry notified 40 days ago is removed by a cleanup
with retention 30, and a second cleanup finds nothing left to remove. -/
theorem cleanup_old_entries_spec_witness :
    ("u", ({ last_notified := .stamp 0, level := .LOW, name := "Old" } : StateEntry)) ∉
      (cleanup_old_entries 3456000 30
        [("u", { last_notified := .stamp 0, level := .LOW, name := "Old" })]).1 ∧
    (cleanup_old_entries 3456000 30
      (cleanup_old_entries 3456000 30
        [("u", { last_notified := .stamp 0, level := .LOW, name := "Old" })]).1).2 =
      false := by
  have hs := cleanup_old_entries_spec 3456000 30
    [("u", { last_notified := .stamp 0, level := .LOW, name := "Old" })]
  constructor
  · intro hmem
    have hkeep := ((hs.1 _).mp hmem).2
    have hrem : removable 3456000 30
        ({ last_notified := .stamp 0, level := .LOW, name := "Old" } : StateEntry) =
        true := by
      simp [removable]
      norm_num
    rw [hkeep] at hrem
    exact Bool.false_ne_true hrem
  · exact congrArg Prod.snd hs.2.2

/-- Inserting by deadline permutes consing. -/
theorem insertByDeadline_perm (x : HackathonRecord) (l : List HackathonRecord) :
    List.Perm (insertByDeadline x l) (x :: l) := by
  induction l with
  | nil => exact List.Perm.refl _
  | cons y ys ih =>
    unfold insertByDeadline
    split_ifs with hxy
    · exact List.Perm.refl _
    · exact (ih.cons y).trans (List.Perm.swap x y ys)

/-- `sortByDeadline` permutes its input. -/
theorem sortByDeadline_perm : ∀ l : List HackathonRecord, List.Perm (sortByDeadline l) l
  | [] => List.Perm.refl _
  | x :: xs =>
    (insertByDeadline_perm x (sortByDeadline xs)).trans ((sortByDeadline_perm xs).cons x)

/-- Inserting by deadline preserves sortedness by deadline. -/
theorem insertByDeadline_pairwise {x : HackathonRecord} {l : List HackathonRecord}
    (hp : l.Pairwise (fun a b => a.deadline ≤ b.deadline)) :
    (insertByDeadline x l).Pairwise (fun a b => a.deadline ≤ b.deadline) := by
  induction l with
  | nil => simp [insertByDeadline]
  | cons y ys ih =>
    rw [List.pairwise_cons] at hp
    unfold insertByDeadline
    split_ifs with hxy
    · refine List.pairwise_cons.mpr ⟨?_, List.pairwise_cons.mpr hp⟩
      intro b hb
      rcases List.mem_cons.mp hb with rfl | hbys
      · exact hxy
      · exact le_trans hxy (hp.1 b hbys)
    · refine List.pairwise_cons.mpr ⟨?_, ih hp.2⟩
      intro b hb
      have hb2 : b ∈ x :: ys := (insertByDeadline_perm x ys).mem_iff.mp hb
      rcases List.mem_cons.mp hb2 with rfl | hbys
      · exact le_of_not_le hxy
      · exact hp.1 b hbys

/-- `sortByDeadline` sorts ascending by deadline. -/
theorem sortByDeadline_pairwise :
    ∀ l : List HackathonRecord,
      (sortByDeadline l).Pairwise (fun a b => a.deadline ≤ b.deadline)
  | [] => by simp [sortByDeadline]
  | x :: xs => insertByDeadline_pairwise (sortByDeadline_pairwise xs)

/-- Every record produced by the dedup loop comes from its input. -/
theorem dedupByUrlAux_subset : ∀ (seen : List String) (l : List HackathonRecord),
    ∀ r ∈ dedupByUrlAux seen l, r ∈ l
  | _, [] => by simp [dedupByUrlAux]
  | seen, h :: rest => by
    intro r hr
    unfold dedupByUrlAux at hr
    split_ifs at hr with hmem
    · exact List.mem_cons_of_mem h (dedupByUrlAux_subset seen rest r hr)
    · rcases List.mem_cons.mp hr with rfl | hr2
      · exact List.mem_cons_self _ _
      · exact List.mem_cons_of_mem h (dedupByUrlAux_subset _ rest r hr2)

/-- The dedup loop yields pairwise-distinct URLs, none of them in `seen`. -/
theorem dedupByUrlAux_urls : ∀ (seen : List String) (l : List HackathonRecord),
    ((dedupByUrlAux seen l).map (fun r => r.url)).Nodup ∧
    ∀ r ∈ dedupByUrlAux seen l, r.url ∉ seen
  | _, [] => by simp [dedupByUrlAux]
  | seen, h :: rest => by
    unfold dedupByUrlAux
    split_ifs with hmem
    · exact dedupByUrlAux_urls seen rest
    · obtain ⟨h1, h2⟩ := dedupByUrlAux_urls (h.url :: seen) rest
      refine ⟨?_, ?_⟩
      · simp only [List.map_cons, List.nodup_cons]
        refine ⟨?_, h1⟩
        intro hcon
        rcases List.mem_map.mp hcon with ⟨r, hrmem, hrurl⟩
        exact (h2 r hrmem) (by rw [hrurl]; exact List.mem_cons_self _ _)
      · intro r hr
        rcases List.mem_cons.mp hr with rfl | hr2
        · exact hmem
        · intro hrseen
          exact (h2 r hr2) (List.mem_cons_of_mem _ hrseen)

/-- Every input record's URL either was already seen or survives dedup. -/
theorem dedupByUrlAux_covers : ∀ (seen : List String) (l : List HackathonRecord),
    ∀ r ∈ l, r.url ∈ seen ∨ ∃ r' ∈ dedupByUrlAux seen l, r'.url = r.url
  | _, [] => by simp
  | seen, h :: rest => by
    intro r hr
    unfold dedupByUrlAux
    split_ifs with hmem
    · rcases List.mem_cons.mp hr with rfl | hr2
      · exact Or.inl hmem
      · exact dedupByUrlAux_covers seen rest r hr2
    · rcases List.mem_cons.mp hr with rfl | hr2
      · exact Or.inr ⟨r, List.mem_cons_self _ _, rfl⟩
      · rcases dedupByUrlAux_covers (h.url :: seen) rest r hr2 with hseen | ⟨r', hr', hurl⟩
        · rcases List.mem_cons.mp hseen with hequ | hs
          · exact Or.inr ⟨h, List.mem_cons_self _ _, hequ.symm⟩
          · exact Or.inl hs
        · exact Or.inr ⟨r', List.mem_cons_of_mem _ hr', hurl⟩

/-- C4 counterexample: the URL "u" first occurs with a past deadline (0)
and again with a future deadline (10); at now = 5 the code (future-filter
first, then dedup) keeps the second occurrence, while the claimed order
(dedup first, then filter) would return the empty list. -/
theorem get_active_hackathons_counterexample :
    get_active_hackathons 5
        [{ name := "A", url := "u", deadline := 0, prize_amount := none,
           location := "Online" },
         { name := "B", url := "u", deadline := 10, prize_amount := none,
           location := "Online" }] ≠
      spec_dedup_then_filter 5
        [{ name := "A", url := "u", deadline := 0, prize_amount := none,
           location := "Online" },
         { name := "B", url := "u", deadline := 10, prize_amount := none,
           location := "Online" }] := by
  decide

/-- C4 amended: the dedup/filter stage keeps only records whose deadline is
strictly in the future, at most one record per URL, sorted ascending by
deadline and drawn from the input; because the future filter runs BEFORE
the first-seen dedup, every URL having at least one future-deadline record
survives — including a URL whose first occurrence has a past deadline. -/
theorem get_active_hackathons_spec (now : ℚ) (hs : List HackathonRecord) :
    (∀ r ∈ get_active_hackathons now hs, now < r.deadline) ∧
    ((get_active_hackathons now hs).map (fun r => r.url)).Nodup ∧
    (get_active_hackathons now hs).Pairwise (fun a b => a.deadline ≤ b.deadline) ∧
    (∀ r ∈ get_active_hackathons now hs, r ∈ hs) ∧
    (∀ r ∈ hs, now < r.deadline →
      ∃ r' ∈ get_active_hackathons now hs, r'.url = r.url) := by
  have hperm : List.Perm
      (sortByDeadline (dedupByUrl (hs.filter (fun h => now < h.deadline))))
      (dedupByUrl (hs.filter (fun h => now < h.deadline))) :=
    sortByDeadline_perm _
  refine ⟨?_, ?_, ?_, ?_, ?_⟩
  · intro r hr
    have hd : r ∈ dedupByUrl (hs.filter (fun h => now < h.deadline)) :=
      hperm.mem_iff.mp hr
    have hf : r ∈ hs.filter (fun h => now < h.deadline) :=
      dedupByUrlAux_subset [] _ r hd
    have := (List.mem_filter.mp hf).2
    simpa using this
  · have h1 := (dedupByUrlAux_urls [] (hs.filter (fun h => now < h.deadline))).1
    exact ((hperm.map (fun r => r.url)).nodup_iff).mpr h1
  · exact sortByDeadline_pairwise _
  · intro r hr
    have hd : r ∈ dedupByUrl (hs.filter (fun h => now < h.deadline)) :=
      hperm.mem_iff.mp hr
    have hf : r ∈ hs.filter (fun h => now < h.deadline) :=
      dedupByUrlAux_subset [] _ r hd
    exact (List.mem_filter.mp hf).1
  · intro r hrin hrfut
    have hf : r ∈ hs.filter (fun h => now < h.deadline) :=
      List.mem_filter.mpr ⟨hrin, by simpa using hrfut⟩
    rcases dedupByUrlAux_covers [] _ r hf with hseen | ⟨r', hr', hurl⟩
    · exact absurd hseen (List.not_mem_nil _)
    · exact ⟨r', hperm.mem_iff.mpr hr', hurl⟩

/-- Witness for the amended C4: the future-deadline record with URL "u"
survives the stage even though the first record with that URL has a past
deadline. -/
theorem get_active_hackathons_spec_witness :
    ∃ r' ∈ get_active_hackathons 5
        [{ name := "A", url := "u", deadline := 0, prize_amount := none,
           location := "Online" },
         { name := "B", url := "u", deadline := 10, prize_amount := none,
           location := "Online" }], r'.url = "u" := by
  exact (get_active_hackathons_spec 5 _).2.2.2.2
    { name := "B", url := "u", deadline := 10, prize_amount := none,
      location := "Online" }
    (by simp) (by norm_num)

/-- C10: in dry-run mode `send_batch` reports every record as sent and
none as failed, because `send_notification` in dry-run always reports
success without a network call. -/
theorem send_batch_dry_run_counts (net : ScoredRecord → Bool)
    (hackathons : List ScoredRecord) :
    (send_batch true net hackathons).sent = hackathons.length ∧
    (send_batch true net hackathons).failed = 0 := by
  rw [send_batch_dry]
  exact ⟨rfl, rfl⟩

/-- Every accepted candidate value strictly exceeds 100. -/
theorem candidateValue_gt (pit : Bool) (c : PrizeCandidate) (v : ℚ)
    (h : candidateValue pit c = some v) : 100 < v := by
  simp only [candidateValue] at h
  split_ifs at h with h1 h2 h3
  cases h
  exact h3

/-- The accumulator never decreases in one prize-fold step. -/
theorem prizeStep_le (pit : Bool) (a : ℚ) (c : PrizeCandidate) :
    a ≤ prizeStep pit a c := by
  unfold prizeStep
  rcases hc : candidateValue pit c with _ | v <;> simp [hc]

/-- The prize fold never decreases the accumulator. -/
theorem prize_fold_le (pit : Bool) :
    ∀ (cs : List PrizeCandidate) (a : ℚ), a ≤ cs.foldl (prizeStep pit) a
  | [], a => le_refl a
  | c :: cs, a => by
    rw [List.foldl_cons]
    exact le_trans (prizeStep_le pit a c) (prize_fold_le pit cs _)

/-- With no accepted candidate the prize fold is the identity. -/
theorem prize_fold_none (pit : Bool) :
    ∀ (cs : List PrizeCandidate) (a : ℚ),
      (∀ c ∈ cs, candidateValue pit c = none) → cs.foldl (prizeStep pit) a = a
  | [], _, _ => rfl
  | c :: cs, a, h => by
    rw [List.foldl_cons]
    have hstep : prizeStep pit a c = a := by
      simp [prizeStep, h c (List.mem_cons_self _ _)]
    rw [hstep]
    exact prize_fold_none pit cs a (fun c' hc' => h c' (List.mem_cons_of_mem _ hc'))

/-- The prize fold dominates every accepted candidate value. -/
theorem prize_fold_ub (pit : Bool) :
    ∀ (cs : List PrizeCandidate) (a : ℚ) (c : PrizeCandidate), c ∈ cs →
      ∀ w, candidateValue pit c = some w → w ≤ cs.foldl (prizeStep pit) a
  | [], _, c, hc, _, _ => absurd hc (List.not_mem_nil c)
  | c' :: cs, a, c, hc, w, hw => by
    rw [List.foldl_cons]
    rcases List.mem_cons.mp hc with rfl | hmem
    · have hstep : prizeStep pit a c = max a w := by simp [prizeStep, hw]
      rw [hstep]
      exact le_trans (le_max_right a w) (prize_fold_le pit cs (max a w))
    · exact prize_fold_ub pit cs (prizeStep pit a c') c hmem w hw

/-- The prize fold either returns its start value or a value attained by
some accepted candidate. -/
theorem prize_fold_attained (pit : Bool) :
    ∀ (cs : List PrizeCandidate) (a : ℚ),
      cs.foldl (prizeStep pit) a = a ∨
      ∃ c ∈ cs, candidateValue pit c = some (cs.foldl (prizeStep pit) a)
  | [], _ => Or.inl rfl
  | c :: cs, a => by
    rw [List.foldl_cons]
    rcases hc : candidateValue pit c with _ | v
    · have hstep : prizeStep pit a c = a := by simp [prizeStep, hc]
      rw [hstep]
      rcases prize_fold_attained pit cs a with he | ⟨c', hc', hv⟩
      · exact Or.inl he
      · exact Or.inr ⟨c', List.mem_cons_of_mem _ hc', hv⟩
    · have hstep : prizeStep pit a c = max a v := by simp [prizeStep, hc]
      rw [hstep]
      rcases prize_fold_attained pit cs (max a v) with he | ⟨c', hc', hv⟩
      · rw [he]
        rcases le_or_lt v a with hva | hav
        · rw [max_eq_left hva]
          exact Or.inl rfl
        · rw [max_eq_right (le_of_lt hav)]
          exact Or.inr ⟨c, List.mem_cons_self _ _, hc⟩
      · exact Or.inr ⟨c', List.mem_cons_of_mem _ hc', hv⟩

/-- C8 counterexample: in a text containing the word "prize", the bare
numeric token 2026 — no currency symbol, no currency suffix — is accepted
by the code (yielding $2026), while the claim's description (only
currency-prefixed or currency-suffixed tokens scanned) yields no
candidate at all. -/
theorem extract_prize_counterexample :
    extract_prize true
        [{ pre := none, amount := 2026, mag := none, suf := none }] = some 2026 ∧
    spec_extract_prize
        [{ pre := none, amount := 2026, mag := none, suf := none }] = none := by
  constructor
  · simp only [extract_prize, candidateValue, prizeStep, List.foldl_cons, List.foldl_nil]
    norm_num
  · simp [spec_extract_prize]

/-- C8 amended: a numeric token qualifies when it carries a currency
symbol before the number or a recognized currency suffix, or — with no
currency marker at all — when the word "prize" occurs anywhere in the
text; a present but unrecognized three-letter suffix disqualifies it;
the conversion table and magnitude suffixes are applied (symbol taking
precedence); a candidate is kept only when its converted value strictly
exceeds the $100 floor; the extraction returns the maximum kept value,
or null when no candidate is kept. -/
theorem extract_prize_spec (pit : Bool) (cs : List PrizeCandidate) :
    (∀ c : PrizeCandidate, candidateValue pit c =
      if ((c.pre.isSome || c.suf.isSome || pit) &&
          (match c.suf with
           | some s => (currencyRate s).isSome
           | none => true) &&
          decide (100 < usdValue c)) then some (usdValue c) else none) ∧
    (extract_prize pit cs = none ↔ ∀ c ∈ cs, candidateValue pit c = none) ∧
    (∀ v, extract_prize pit cs = some v →
      100 < v ∧ (∃ c ∈ cs, candidateValue pit c = some v) ∧
      ∀ c ∈ cs, ∀ w, candidateValue pit c = some w → w ≤ v) := by
  refine ⟨?_, ⟨?_, ?_⟩, ?_⟩
  · intro c
    rcases c with ⟨cpre, amt, cmag, csuf⟩
    rcases cpre with _ | p <;> rcases csuf with _ | sfx <;> cases pit
    · simp [candidateValue, usdValue]
    · simp [candidateValue, usdValue]
    · rcases hcr : currencyRate sfx with _ | r <;>
        simp [candidateValue, usdValue, hcr]
    · rcases hcr : currencyRate sfx with _ | r <;>
        simp [candidateValue, usdValue, hcr]
    · rcases hcp : currencyRate p with _ | r <;>
        simp [candidateValue, usdValue, hcp]
    · rcases hcp : currencyRate p with _ | r <;>
        simp [candidateValue, usdValue, hcp]
    · rcases hcr : currencyRate sfx with _ | r <;>
        rcases hcp : currencyRate p with _ | r2 <;>
        simp [candidateValue, usdValue, hcr, hcp]
    · rcases hcr : currencyRate sfx with _ | r <;>
        rcases hcp : currencyRate p with _ | r2 <;>
        simp [candidateValue, usdValue, hcr, hcp]
  · intro hnone c hc
    simp only [extract_prize] at hnone
    split_ifs at hnone with hpos
    rcases hv : candidateValue pit c with _ | v
    · rfl
    · exfalso
      have h100 := candidateValue_gt pit c v hv
      have hub := prize_fold_ub pit cs 0 c hc v hv
      exact hpos (by linarith)
  · intro hall
    simp only [extract_prize]
    rw [prize_fold_none pit cs 0 hall]
    simp
  · intro v hv
    simp only [extract_prize] at hv
    split_ifs at hv with hpos
    cases hv
    refine ⟨?_, ?_, ?_⟩
    · rcases prize_fold_attained pit cs 0 with he | ⟨c, _, hcv⟩
      · rw [he] at hpos
        exact absurd hpos (lt_irrefl 0)
      · exact candidateValue_gt pit c _ hcv
    · rcases prize_fold_attained pit cs 0 with he | ⟨c, hc, hcv⟩
      · rw [he] at hpos
        exact absurd hpos (lt_irrefl 0)
      · exact ⟨c, hc, hcv⟩
    · intro c hc w hw
      exact prize_fold_ub pit cs 0 c hc w hw

/-- C6 counterexample: with `dry_run=True`, a run that has something to
notify (a new hackathon 100 hours out, URL absent from the store) still
executes `cleanup_old_entries(days=30)`, which removes a 40-day-old entry
and persists: the state file after the run differs from the state file
before it. -/
theorem main_dry_run_counterexample :
    (main_dry_run 0 3
        [("old", { last_notified := .stamp (-3456000), level := .LOW, name := "Old" })]
        [{ name := "New", url := "new", deadline := 360000, prize_amount := none,
           location := "Online" }]
        (fun _ => true)).1 ≠
      [("old", { last_notified := .stamp (-3456000), level := .LOW, name := "Old" })] := by
  have hhr : calculate_hours_remaining 0 360000 = 100 := by
    unfold calculate_hours_remaining
    rw [show ((360000 : ℚ) - 0) / 3600 = 100 by norm_num]
    exact max_eq_right (by norm_num)
  have hlvl : get_alert_level 100 = .LOW := by
    unfold get_alert_level CRITICAL_THRESHOLD HIGH_THRESHOLD MEDIUM_THRESHOLD LOW_THRESHOLD
    norm_num
  have hbeq : ("old" == "new") = false := by decide
  simp only [main_dry_run, process_hackathons, List.filterMap, score_hackathon,
    hhr, hlvl, sortByPriorityDesc, insertDesc, filter_for_notification,
    should_notify, lookupUrl, List.find?, List.filter, cleanup_old_entries,
    removable, get_notification_interval, List.take, hbeq]
  norm_num

/-- C6 amended: a dry-run orchestrator pass makes no live network post and
records no notification, but it does run `cleanup_old_entries(30)`, which
may delete stale entries and persist: the resulting state file is always a
subset of the previous one, and equals it whenever no stored entry is
removable (i.e. none is stale or unparsable). -/
theorem main_dry_run_spec (now : ℚ) (top_n : ℕ) (disk : StateMap)
    (hackathons : List HackathonRecord) (net : ScoredRecord → Bool) :
    (main_dry_run now top_n disk hackathons net).2 = 0 ∧
    (∀ p ∈ (main_dry_run now top_n disk hackathons net).1, p ∈ disk) ∧
    ((∀ p ∈ disk, removable now 30 p.2 = false) →
      (main_dry_run now top_n disk hackathons net).1 = disk) := by
  simp only [main_dry_run]
  split_ifs with h1 h2 h3 h4
  · exact ⟨rfl, fun p hp => hp, fun _ => rfl⟩
  · exact ⟨rfl, fun p hp => hp, fun _ => rfl⟩
  · exact ⟨rfl, fun p hp => hp, fun _ => rfl⟩
  · refine ⟨?_, ?_, ?_⟩
    · rw [send_batch_dry]
    · intro p hp
      exact ((cleanup_old_entries_mem now 30 disk p).mp hp).1
    · intro hall
      exfalso
      simp only [cleanup_old_entries, List.any_eq_true] at h4
      rcases h4 with ⟨p, hp, hrem⟩
      rw [hall p hp] at hrem
      exact Bool.false_ne_true hrem
  · exact ⟨by rw [send_batch_dry], fun p hp => hp, fun _ => rfl⟩

/-- Witness for the amended C6 on an empty store: no live post, and the
state file is unchanged (nothing is removable). -/
theorem main_dry_run_spec_witness :
    (main_dry_run 0 3 [] [] (fun _ => true)).2 = 0 ∧
    (main_dry_run 0 3 [] [] (fun _ => true)).1 = [] := by
  have hs := main_dry_run_spec 0 3 [] [] (fun _ => true)
  exact ⟨hs.1, hs.2.2 (by simp)⟩

/-- Witness for the amended C8: with no candidate at all the extraction
returns null. -/
theorem extract_prize_spec_witness : extract_prize false [] = none := by
  exact (extract_prize_spec false []).2.1.mpr (by simp)

end HLUEAS
